import Mathlib

/-!
Verification development for the integration-test harness of an AI-driven
pull-request reviewer.  The harness polls a remote repository for a
bot-authored comment (the poller in `review.test.ts`), reconciles the shared
fixture repository back to an empty state (`cleanup.ts` together with the
operation helpers in `github-operations.ts`), and validates its configuration
eagerly (`test-config.ts`).

The embedding below is shallow: each TypeScript function is translated into a
Lean definition.  Functions whose behaviour depends only on the data returned
by a single remote call are modelled as handlers over that call's outcome
(an `Except OpError` value), which makes the try/catch structure explicit.
The reconciliation routines are additionally modelled against an explicit
repository state `RepoState` whose fault-free remote semantics feeds those
handlers; commit messages and URLs carried by the real API are not observable
by any property considered here and are omitted from the records.
-/

/-! ## Basic string helpers (character-list semantics of the JS operations) -/

/-- Boolean test that `pat` is an initial segment of `s` (character lists). -/
def startsWithList : List Char → List Char → Bool
  | [], _ => true
  | _ :: _, [] => false
  | a :: as, b :: bs => a == b && startsWithList as bs

/-- Boolean substring containment on character lists; the semantics of the
JavaScript `String.prototype.includes`. -/
def containsSub : List Char → List Char → Bool
  | hay, pat =>
    if startsWithList pat hay then true
    else
      match hay with
      | [] => false
      | _ :: t => containsSub t pat

/-- Lower-casing of a string, character by character; the semantics of the
JavaScript `toLowerCase` on the ASCII letters used by the markers. -/
def strLower (s : String) : String := ⟨s.data.map Char.toLower⟩

/-- Splitting a character list at every occurrence of `sep`; the semantics of
the JavaScript `String.prototype.split` with a single-character separator. -/
def splitOnChar (sep : Char) : List Char → List (List Char)
  | [] => [[]]
  | c :: rest =>
    let r := splitOnChar sep rest
    if c == sep then [] :: r
    else
      match r with
      | [] => [[c]]
      | g :: gs => (c :: g) :: gs

/-! ## Errors of the remote operations

Octokit failures carry a numeric `status`; locally thrown `Error` values do
not.  The `catch` blocks in the source test `error.status === 404`, which is
false for a plain `Error`. -/

/-- Failure of a remote operation: an HTTP error with a status code, or a
locally thrown `Error` carrying only a message. -/
inductive OpError where
  | http (status : Nat)
  | other (msg : String)
deriving DecidableEq, Repr

/-- The `error.status === 404` test of the source; a plain `Error` has no
`status` field, so the comparison is false for it. -/
def OpError.is404 : OpError → Bool
  | .http s => s == 404
  | .other _ => false

/-! ## Comments and the poller (`review.test.ts`) -/

/-- A comment as returned by `listComments`: id, body text (always a string),
author login or `null`. -/
structure GHComment where
  id : Nat
  body : String
  user : Option String
deriving DecidableEq, Repr

/-- The qualifying-signal test of `waitForReviewComment`: the author is the
`github-actions` identity and the lower-cased body contains one of the two
marker substrings. -/
def isGeminiReview (c : GHComment) : Bool :=
  (c.user == some "github-actions") &&
    (containsSub (strLower c.body).data ("review summary").data ||
     containsSub (strLower c.body).data ("📋").data)

/-- `POLL_INTERVAL_MS` from `test-config.ts`. -/
def POLL_INTERVAL_MS : Nat := 10000

/-- `REVIEW_TIMEOUT_MS` from `test-config.ts`. -/
def REVIEW_TIMEOUT_MS : Nat := 300000

/-- The polling loop of `waitForReviewComment` under an idealised zero-latency
clock: time advances only by the fixed sleep interval, `fetch t` is the
comment list observed by the fetch issued at time `t`, and the loop runs while
the current time is below the deadline. -/
def pollLoop (fetch : Nat → List GHComment) (deadline now : Nat) : Bool :=
  if now < deadline then
    if (fetch now).any isGeminiReview then true
    else pollLoop fetch deadline (now + POLL_INTERVAL_MS)
  else false
termination_by deadline - now
decreasing_by simp only [POLL_INTERVAL_MS]; omega

/-- Number of loop-body executions of the polling loop, instrumented alongside
`pollLoop`. -/
def pollSteps (fetch : Nat → List GHComment) (deadline now : Nat) : Nat :=
  if now < deadline then
    if (fetch now).any isGeminiReview then 1
    else pollSteps fetch deadline (now + POLL_INTERVAL_MS) + 1
  else 0
termination_by deadline - now
decreasing_by simp only [POLL_INTERVAL_MS]; omega

/-- `waitForReviewComment`: poll from the start time (taken as 0) against the
deadline `start + REVIEW_TIMEOUT_MS`. -/
def waitForReviewComment (fetch : Nat → List GHComment) : Bool :=
  pollLoop fetch REVIEW_TIMEOUT_MS 0

/-! ## `listComments` (`github-operations.ts`): mapping of raw API data -/

/-- The author object of a raw API comment. -/
structure RawUser where
  login : String
deriving DecidableEq, Repr

/-- A raw API comment: the body may be missing and the author object may be
absent. -/
structure RawComment where
  id : Nat
  body : Option String
  user : Option RawUser
deriving DecidableEq, Repr

/-- The JavaScript `a || d` applied to a possibly-missing string: a missing or
empty string falls through to the default. -/
def jsOrStr (a : Option String) (d : String) : String :=
  match a with
  | some s => if s == "" then d else s
  | none => d

/-- The JavaScript `x || null` applied to a possibly-missing string: missing
or empty becomes `null`. -/
def jsOrNull (a : Option String) : Option String :=
  match a with
  | some s => if s == "" then none else some s
  | none => none

/-- The per-comment mapping of `listComments`:
`body: comment.body || ''` and `user: comment.user?.login || null`. -/
def convComment (c : RawComment) : GHComment :=
  { id := c.id
  , body := jsOrStr c.body ""
  , user := jsOrNull (c.user.map RawUser.login) }

/-- `listComments` applied to the data of a successful API response. -/
def listCommentsOn (data : List RawComment) : List GHComment :=
  data.map convComment

/-! ## Configuration (`test-config.ts`) -/

/-- The environment variables read by the configuration module; `some ""`
models a variable that is set to the empty string. -/
structure Env where
  TEST_REPO_NAME : Option String
  GITHUB_TOKEN : Option String
  TEST_REPO_PAT : Option String
deriving DecidableEq, Repr

/-- The timeout block of `TestConfig`. -/
structure Timeouts where
  pollIntervalMs : Nat
  reviewTimeoutMs : Nat
  invokeTimeoutMs : Nat
  fixTimeoutMs : Nat
deriving DecidableEq, Repr

/-- The validated configuration produced by `buildConfig`. -/
structure TestConfig where
  owner : String
  name : String
  token : String
  timeouts : Timeouts
deriving DecidableEq, Repr

/-- The JavaScript `a || b` on possibly-missing strings: a missing or empty
first operand falls through to the second. -/
def jsOr (a b : Option String) : Option String :=
  match a with
  | some s => if s == "" then b else some s
  | none => b

/-- `parseTestRepoName`: require `TEST_REPO_NAME` to be set and non-empty
(the JavaScript `!fullName` test), split it on `/`, and require exactly two
non-empty parts. -/
def parseTestRepoName (env : Env) : Except String (String × String) :=
  match env.TEST_REPO_NAME with
  | none =>
    .error ("Environment variable TEST_REPO_NAME is required.\nFormat: \"owner/repo\" (e.g., \"IamRiddhi/test-repo-integ\")")
  | some fullName =>
    if fullName == "" then
      .error ("Environment variable TEST_REPO_NAME is required.\nFormat: \"owner/repo\" (e.g., \"IamRiddhi/test-repo-integ\")")
    else
      match (splitOnChar '/' fullName.data).map (fun l => String.mk l) with
      | [owner, name] =>
        if owner == "" || name == "" then
          .error ("Invalid TEST_REPO_NAME format: \"" ++ fullName ++ "\"\nExpected: \"owner/repo\" (e.g., \"IamRiddhi/test-repo-integ\")")
        else .ok (owner, name)
      | _ =>
        .error ("Invalid TEST_REPO_NAME format: \"" ++ fullName ++ "\"\nExpected: \"owner/repo\" (e.g., \"IamRiddhi/test-repo-integ\")")

/-- `getGithubToken`: `process.env.GITHUB_TOKEN || process.env.TEST_REPO_PAT`,
then the `!token` guard. -/
def getGithubToken (env : Env) : Except String String :=
  match jsOr env.GITHUB_TOKEN env.TEST_REPO_PAT with
  | some t =>
    if t == "" then
      .error ("GitHub authentication required. Set one of:\n  • GITHUB_TOKEN (production with GitHub App)\n  • TEST_REPO_PAT (local testing with PAT)")
    else .ok t
  | none =>
    .error ("GitHub authentication required. Set one of:\n  • GITHUB_TOKEN (production with GitHub App)\n  • TEST_REPO_PAT (local testing with PAT)")

/-- `buildConfig`: validate the repository identifier and the credential, then
attach the fixed timeout constants.  Evaluated eagerly at module load, before
any remote client is constructed. -/
def buildConfig (env : Env) : Except String TestConfig :=
  match parseTestRepoName env with
  | .error e => .error e
  | .ok (owner, name) =>
    match getGithubToken env with
    | .error e => .error e
    | .ok token =>
      .ok { owner := owner, name := name, token := token
          , timeouts := ⟨10000, 300000, 300000, 600000⟩ }

/-! ## Repository state

Fault-free semantics of the remote fixture repository.  Pull requests and the
issue-namespace records are kept in separate lists; a record in the issue list
flagged `isPullRequest` models the pull request's shadow entry in the shared
issue-tracking namespace of the remote API. -/

/-- A pull request of the fixture repository. -/
structure PullReq where
  number : Nat
  title : String
  headRef : String
  isOpen : Bool
deriving DecidableEq, Repr

/-- The projection of a pull request returned by `listPullRequests`. -/
structure PullInfo where
  number : Nat
  title : String
  headRef : String
deriving DecidableEq, Repr

/-- A record of the issue-tracking namespace; `isPullRequest` marks the shadow
entry of a pull request (the `pull_request` key of the raw API item). -/
structure IssueRec where
  number : Nat
  title : String
  isOpen : Bool
  isPullRequest : Bool
deriving DecidableEq, Repr

/-- The projection of an issue returned by `listIssues`. -/
structure IssueInfo where
  number : Nat
  title : String
deriving DecidableEq, Repr

/-- A raw branch record of the branch-listing API. -/
structure BranchRec where
  name : String
deriving DecidableEq, Repr

/-- A stored file: path and current revision handle (`sha`). -/
structure RepoFile where
  path : String
  sha : String
deriving DecidableEq, Repr

/-- The outcome data of a successful `getContent` call: a single file, or the
entry list of a directory. -/
inductive ContentResponse where
  | file (f : RepoFile)
  | dir (entries : List RepoFile)
deriving DecidableEq, Repr

/-- The state of the fixture repository. -/
structure RepoState where
  prs : List PullReq
  issues : List IssueRec
  branches : List String
  files : List RepoFile
deriving DecidableEq, Repr

/-- State filter applied by the remote when listing with a `state` argument
(`'open' | 'closed' | 'all'`). -/
def matchesState (st : String) (o : Bool) : Bool :=
  if st == "all" then true
  else if st == "open" then o
  else !o

/-! ## Handlers: the data mapping and try/catch structure of each operation in
`github-operations.ts`, as a function of the remote call's outcome. -/

/-- `listPullRequests` applied to the outcome of `pulls.list`: map the records
to the returned projection; a failed call propagates (there is no catch). -/
def listPullRequestsOn :
    Except OpError (List PullReq) → Except OpError (List PullInfo)
  | .ok data => .ok (data.map (fun p => ⟨p.number, p.title, p.headRef⟩))
  | .error e => .error e

/-- `listIssues` applied to the outcome of `issues.listForRepo`: filter out
the pull-request shadow records, then project; a failed call propagates
(there is no catch). -/
def listIssuesOn :
    Except OpError (List IssueRec) → Except OpError (List IssueInfo)
  | .ok data =>
    .ok ((data.filter (fun i => !i.isPullRequest)).map (fun i => ⟨i.number, i.title⟩))
  | .error e => .error e

/-- `listBranches` applied to the outcome of `repos.listBranches`: map each
record to its name; a failed call propagates (there is no catch). -/
def listBranchesOn :
    Except OpError (List BranchRec) → Except OpError (List String)
  | .ok data => .ok (data.map BranchRec.name)
  | .error e => .error e

/-- `listFiles` applied to the outcome of `repos.getContent` on the directory
path: a directory yields its entry paths, a non-directory yields `[]`, a 404
failure is caught and yields `[]`, any other failure propagates. -/
def listFilesOn :
    Except OpError ContentResponse → Except OpError (List String)
  | .ok (.dir entries) => .ok (entries.map RepoFile.path)
  | .ok (.file _) => .ok []
  | .error e => if e.is404 then .ok [] else .error e

/-- The file-write request issued by `createOrUpdateFile`
(`repos.createOrUpdateFileContents`); `sha = none` is a creation, `sha = some`
an update of the carried revision. -/
structure PutFileRequest where
  path : String
  content : String
  message : String
  branch : String
  sha : Option String
deriving DecidableEq, Repr

/-- `createOrUpdateFile` as a function of the probe outcome (the
`repos.getContent` call on the target path): a found file contributes its
revision handle, a directory or a caught 404 leaves it out, any other probe
failure propagates and no write request is issued.  The spread
`...(sha && \x7b sha \x7d)` of the source omits the field when the handle is
the empty string. -/
def createOrUpdateFile (path content message branch : String)
    (probe : Except OpError ContentResponse) : Except OpError PutFileRequest :=
  match probe with
  | .ok (.file f) =>
    .ok { path := path, content := content, message := message, branch := branch
        , sha := if f.sha == "" then none else some f.sha }
  | .ok (.dir _) =>
    .ok { path := path, content := content, message := message, branch := branch
        , sha := none }
  | .error e =>
    if e.is404 then
      .ok { path := path, content := content, message := message, branch := branch
          , sha := none }
    else .error e

/-! ## State-level operations

Each operation feeds the fault-free remote outcome of the current state into
its handler, or acts on the state directly. -/

/-- Test that a stored file lies strictly below the directory `dir` of the
remote tree (its path extends `dir ++ "/"`). -/
def isChildPath (dir : String) (f : RepoFile) : Bool :=
  startsWithList (dir ++ "/").data f.path.data

/-- `getContent` against the state: an entry with the exact path is a file;
otherwise the entries strictly below the path form a directory; otherwise the
call fails with 404. -/
def getContent (path : String) (s : RepoState) : Except OpError ContentResponse :=
  match s.files.find? (fun f => f.path == path) with
  | some f => .ok (.file f)
  | none =>
    match s.files.filter (isChildPath path) with
    | [] => .error (.http 404)
    | e :: es => .ok (.dir (e :: es))

/-- `listPullRequests` against the state. -/
def listPullRequests (st : String) (s : RepoState) :
    Except OpError (List PullInfo) :=
  listPullRequestsOn (.ok (s.prs.filter (fun p => matchesState st p.isOpen)))

/-- `listIssues` against the state. -/
def listIssues (st : String) (s : RepoState) :
    Except OpError (List IssueInfo) :=
  listIssuesOn (.ok (s.issues.filter (fun i => matchesState st i.isOpen)))

/-- `listBranches` against the state. -/
def listBranches (s : RepoState) : Except OpError (List String) :=
  listBranchesOn (.ok (s.branches.map (fun n => ⟨n⟩)))

/-- `listFiles` against the state. -/
def listFiles (dir : String) (s : RepoState) : Except OpError (List String) :=
  listFilesOn (getContent dir s)

/-- `listWorkflowFiles`. -/
def listWorkflowFiles (s : RepoState) : Except OpError (List String) :=
  listFiles ".github/workflows" s

/-- `listCommandFiles`. -/
def listCommandFiles (s : RepoState) : Except OpError (List String) :=
  listFiles ".github/commands" s

/-- `closePullRequest`: `pulls.update` with `state: 'closed'`; fails with 404
when no pull request carries the number. -/
def closePullRequest (n : Nat) (s : RepoState) : Except OpError RepoState :=
  if s.prs.any (fun p => p.number == n) then
    .ok { s with prs := s.prs.map (fun p =>
            if p.number == n then { p with isOpen := false } else p) }
  else .error (.http 404)

/-- `closeIssue`: `issues.update` with `state: 'closed'`; fails with 404 when
no record of the issue namespace carries the number. -/
def closeIssue (n : Nat) (s : RepoState) : Except OpError RepoState :=
  if s.issues.any (fun i => i.number == n) then
    .ok { s with issues := s.issues.map (fun i =>
            if i.number == n then { i with isOpen := false } else i) }
  else .error (.http 404)

/-- `deleteBranch`: `git.deleteRef`; fails with 404 when the branch does not
exist. -/
def deleteBranch (b : String) (s : RepoState) : Except OpError RepoState :=
  if s.branches.any (fun c => c == b) then
    .ok { s with branches := s.branches.filter (fun c => c != b) }
  else .error (.http 404)

/-- `deleteFile`: probe the path with `getContent` (a failure propagates — the
function has no catch), reject a directory with a plain `Error`, then issue
`repos.deleteFile` with the current revision handle. -/
def deleteFile (path message : String) (s : RepoState) :
    Except OpError RepoState :=
  match getContent path s with
  | .error e => .error e
  | .ok (.dir _) => .error (.other ("Path " ++ path ++ " is a directory, not a file"))
  | .ok (.file _) => .ok { s with files := s.files.filter (fun f => f.path != path) }

/-- Sequential execution of one remote mutation per list element, stopping at
the first failure; the shape of every `for … await` loop of `cleanup.ts`. -/
def runSeq (op : α → RepoState → Except OpError RepoState) :
    List α → RepoState → Except OpError RepoState
  | [], s => .ok s
  | x :: rest, s =>
    match op x s with
    | .ok s' => runSeq op rest s'
    | .error e => .error e

/-- `closeAllPullRequests`: list the open pull requests, close each in turn,
report how many were listed. -/
def closeAllPullRequests (s : RepoState) : Except OpError (Nat × RepoState) :=
  match listPullRequests "open" s with
  | .error e => .error e
  | .ok prs =>
    match runSeq (fun p st => closePullRequest p.number st) prs s with
    | .ok s' => .ok (prs.length, s')
    | .error e => .error e

/-- `closeAllIssues`: list the open issues (pull-request shadows filtered
out), close each in turn, report how many were listed. -/
def closeAllIssues (s : RepoState) : Except OpError (Nat × RepoState) :=
  match listIssues "open" s with
  | .error e => .error e
  | .ok issues =>
    match runSeq (fun i st => closeIssue i.number st) issues s with
    | .ok s' => .ok (issues.length, s')
    | .error e => .error e

/-- `deleteAllBranches`: list the branches, keep those different from `main`,
delete each in turn, report the deleted names. -/
def deleteAllBranches (s : RepoState) : Except OpError (List String × RepoState) :=
  match listBranches s with
  | .error e => .error e
  | .ok branches =>
    let branchesToDelete := branches.filter (fun b => b != "main")
    match runSeq (fun b st => deleteBranch b st) branchesToDelete s with
    | .ok s' => .ok (branchesToDelete, s')
    | .error e => .error e

/-- `deleteWorkflowFiles`: list the workflow files and delete each. -/
def deleteWorkflowFiles (s : RepoState) : Except OpError (Nat × RepoState) :=
  match listWorkflowFiles s with
  | .error e => .error e
  | .ok files =>
    match runSeq (fun p st => deleteFile p "Cleanup: Remove test workflow file" st) files s with
    | .ok s' => .ok (files.length, s')
    | .error e => .error e

/-- `deleteCommandFiles`: list the slash-command files and delete each. -/
def deleteCommandFiles (s : RepoState) : Except OpError (Nat × RepoState) :=
  match listCommandFiles s with
  | .error e => .error e
  | .ok files =>
    match runSeq (fun p st => deleteFile p "Cleanup: Remove test command file" st) files s with
    | .ok s' => .ok (files.length, s')
    | .error e => .error e

/-- `deleteMockCodeFiles`: delete the well-known mock source file, catching a
404 failure as a no-op; any other failure propagates. -/
def deleteMockCodeFiles (s : RepoState) : Except OpError (Nat × RepoState) :=
  match deleteFile "src/calculator.js" "Cleanup: Remove test code file" s with
  | .ok s' => .ok (1, s')
  | .error e => if e.is404 then .ok (0, s) else .error e

/-- The per-step counts reported by `cleanup` (each sub-step logs the number
of items it processed; `deleteAllBranches` logs the deleted names). -/
structure CleanupReport where
  prsClosed : Nat
  issuesClosed : Nat
  branchesDeleted : List String
  workflowFilesDeleted : Nat
  commandFilesDeleted : Nat
  mockFilesDeleted : Nat
deriving DecidableEq, Repr

/-- `cleanup`: the six reconciliation sub-steps run strictly in sequence; the
first failure aborts the remaining steps. -/
def cleanup (s : RepoState) : Except OpError (CleanupReport × RepoState) :=
  match closeAllPullRequests s with
  | .error e => .error e
  | .ok (n1, s1) =>
    match closeAllIssues s1 with
    | .error e => .error e
    | .ok (n2, s2) =>
      match deleteAllBranches s2 with
      | .error e => .error e
      | .ok (bs, s3) =>
        match deleteWorkflowFiles s3 with
        | .error e => .error e
        | .ok (n4, s4) =>
          match deleteCommandFiles s4 with
          | .error e => .error e
          | .ok (n5, s5) =>
            match deleteMockCodeFiles s5 with
            | .error e => .error e
            | .ok (n6, s6) => .ok (⟨n1, n2, bs, n4, n5, n6⟩, s6)

/-! ## Theorems: the poller -/

/-- The polling loop resolves to true exactly when one of the fetches issued
before the deadline observes a qualifying comment (fuel-bounded induction on
the remaining time). -/
theorem pollLoop_true_iff_aux (fetch : Nat → List GHComment) :
    ∀ (k d n : Nat), d ≤ n + POLL_INTERVAL_MS * k →
      (pollLoop fetch d n = true ↔
        ∃ j, n + POLL_INTERVAL_MS * j < d ∧
          ((fetch (n + POLL_INTERVAL_MS * j)).any isGeminiReview) = true) := by
  intro k
  induction k with
  | zero =>
    intro d n hk
    rw [pollLoop]
    simp only [POLL_INTERVAL_MS] at *
    have hnd : ¬ n < d := by omega
    simp only [if_neg hnd]
    constructor
    · intro h; exact absurd h (by simp)
    · rintro ⟨j, hj, _⟩; omega
  | succ k ih =>
    intro d n hk
    rw [pollLoop]
    by_cases hnd : n < d
    · simp only [if_pos hnd]
      by_cases hf : ((fetch n).any isGeminiReview) = true
      · simp only [hf, if_pos rfl]
        constructor
        · intro _
          exact ⟨0, by simpa [POLL_INTERVAL_MS] using hnd, by simpa using hf⟩
        · intro _; rfl
      · have hf' : ((fetch n).any isGeminiReview) = false := by
          simpa using hf
        simp only [hf']
        have hstep := ih d (n + POLL_INTERVAL_MS)
          (by simp only [POLL_INTERVAL_MS] at *; omega)
        rw [if_neg (by simp)]
        rw [hstep]
        constructor
        · rintro ⟨j, hj, hq⟩
          refine ⟨j + 1, ?_, ?_⟩
          · simp only [POLL_INTERVAL_MS] at *; omega
          · have : n + POLL_INTERVAL_MS * (j + 1) = n + POLL_INTERVAL_MS + POLL_INTERVAL_MS * j := by
              simp only [POLL_INTERVAL_MS]; omega
            rw [this]; exact hq
        · rintro ⟨j, hj, hq⟩
          match j with
          | 0 =>
            exfalso
            simp only [POLL_INTERVAL_MS] at hq
            simp only [Nat.mul_zero, Nat.add_zero] at hq
            rw [hq] at hf'
            simp at hf'
          | j + 1 =>
            refine ⟨j, ?_, ?_⟩
            · simp only [POLL_INTERVAL_MS] at *; omega
            · have : n + POLL_INTERVAL_MS + POLL_INTERVAL_MS * j = n + POLL_INTERVAL_MS * (j + 1) := by
                simp only [POLL_INTERVAL_MS]; omega
              rw [this]; exact hq
    · simp only [if_neg hnd]
      constructor
      · intro h; exact absurd h (by simp)
      · rintro ⟨j, hj, _⟩
        exact absurd hj (by simp only [POLL_INTERVAL_MS] at *; omega)

/-- C1: the poller returns true if and only if one of the comment lists
observed before the deadline (the fetch at poll time `POLL_INTERVAL_MS * j`
for some `j < 30`) contains at least one comment recognised by
`isGeminiReview` — authored by `github-actions` with a lower-cased body
containing `review summary` or `📋`; the existential over the membership
`c ∈ fetch …` ranges over every comment of the fetched list, not only the
newest. -/
theorem waitForReviewComment_iff (fetch : Nat → List GHComment) :
    waitForReviewComment fetch = true ↔
      ∃ j, j < 30 ∧ ∃ c ∈ fetch (POLL_INTERVAL_MS * j), isGeminiReview c = true := by
  rw [waitForReviewComment,
    pollLoop_true_iff_aux fetch REVIEW_TIMEOUT_MS REVIEW_TIMEOUT_MS 0
      (by simp only [POLL_INTERVAL_MS, REVIEW_TIMEOUT_MS]; omega)]
  constructor
  · rintro ⟨j, hj, hq⟩
    rw [List.any_eq_true] at hq
    refine ⟨j, ?_, by simpa using hq⟩
    simp only [POLL_INTERVAL_MS, REVIEW_TIMEOUT_MS] at *; omega
  · rintro ⟨j, hj, c, hc, hq⟩
    refine ⟨j, ?_, ?_⟩
    · simp only [POLL_INTERVAL_MS, REVIEW_TIMEOUT_MS] at *; omega
    · rw [List.any_eq_true]
      exact ⟨c, by simpa using hc, hq⟩

/-- When no fetch ever observes a qualifying comment, the number of
loop-body executions is the ceiling of the remaining time divided by the poll
interval. -/
theorem pollSteps_closed_aux (fetch : Nat → List GHComment)
    (hall : ∀ t, ((fetch t).any isGeminiReview) = false) :
    ∀ (k d n : Nat), d ≤ n + POLL_INTERVAL_MS * k →
      pollSteps fetch d n = (d - n + (POLL_INTERVAL_MS - 1)) / POLL_INTERVAL_MS := by
  intro k
  induction k with
  | zero =>
    intro d n hk
    rw [pollSteps]
    simp only [POLL_INTERVAL_MS] at *
    rw [if_neg (by omega)]
    omega
  | succ k ih =>
    intro d n hk
    rw [pollSteps]
    by_cases hnd : n < d
    · simp only [if_pos hnd, hall n]
      rw [if_neg (by simp)]
      rw [ih d (n + POLL_INTERVAL_MS) (by simp only [POLL_INTERVAL_MS] at *; omega)]
      simp only [POLL_INTERVAL_MS] at *
      omega
    · rw [if_neg hnd]
      simp only [POLL_INTERVAL_MS] at *
      omega

/-- C6: when every fetch returns no qualifying comment, the poller resolves
to false (a boolean outcome) and, under the idealised zero-latency clock with
deadline 300000 ms and interval 10000 ms, the loop body executes exactly 30
times. -/
theorem poller_timeout (fetch : Nat → List GHComment)
    (hall : ∀ t, ((fetch t).any isGeminiReview) = false) :
    waitForReviewComment fetch = false ∧
      pollSteps fetch REVIEW_TIMEOUT_MS 0 = 30 := by
  constructor
  · have h := waitForReviewComment_iff fetch
    rw [Bool.eq_false_iff]
    intro htrue
    rcases h.mp htrue with ⟨j, _, c, hc, hq⟩
    have h2 := hall (POLL_INTERVAL_MS * j)
    rw [List.any_eq_false] at h2
    exact h2 c hc hq
  · rw [pollSteps_closed_aux fetch hall REVIEW_TIMEOUT_MS REVIEW_TIMEOUT_MS 0
      (by simp only [POLL_INTERVAL_MS, REVIEW_TIMEOUT_MS]; omega)]
    simp only [POLL_INTERVAL_MS, REVIEW_TIMEOUT_MS]

/-- Witness for C6: with no comment ever posted, the poller times out after
exactly 30 iterations and returns false. -/
theorem poller_timeout_witness :
    waitForReviewComment (fun _ => []) = false ∧
      pollSteps (fun _ => []) REVIEW_TIMEOUT_MS 0 = 30 :=
  poller_timeout (fun _ => []) (fun _ => rfl)

/-! ## Theorems: error handling, file writes, configuration, comment mapping -/

/-- Counterexample for C3: `listBranches` has no catch, so a 404 failure of
the remote call propagates unchanged instead of yielding an empty list. -/
theorem listBranches_404_counterexample :
    listBranchesOn (Except.error (OpError.http 404)) = Except.error (OpError.http 404) ∧
    listBranchesOn (Except.error (OpError.http 404)) ≠ Except.ok [] := by
  refine ⟨rfl, ?_⟩
  intro h
  exact Except.noConfusion h

/-- C3 (amended): only the file-listing operation backing
`listWorkflowFiles` and `listCommandFiles` converts a 404 failure into the
empty list (any other failure propagating); the pull-request, issue and
branch listings propagate every failure unchanged. -/
theorem list_404_policy (e : OpError) :
    listFilesOn (Except.error e) = (if e.is404 then Except.ok [] else Except.error e) ∧
    listBranchesOn (Except.error e) = Except.error e ∧
    listPullRequestsOn (Except.error e) = Except.error e ∧
    listIssuesOn (Except.error e) = Except.error e :=
  ⟨rfl, rfl, rfl, rfl⟩

/-- Counterexample for C4: the generic `deleteFile` probes the path first
and has no catch, so deleting an absent file fails with the probe's 404
instead of succeeding as a no-op. -/
theorem deleteFile_absent_fatal :
    deleteFile "src/calculator.js" "Cleanup: Remove test code file" ⟨[], [], [], []⟩
      = Except.error (OpError.http 404) := rfl

/-- C4 (amended): absence is non-fatal specifically for the mock-file
delete: `deleteMockCodeFiles` treats a 404 from deleting
`src/calculator.js` as a successful no-op reporting zero deletions, reports
one deletion when the file exists, and propagates any non-404 failure
unchanged. -/
theorem deleteMockCodeFiles_spec (s : RepoState) :
    (getContent "src/calculator.js" s = Except.error (OpError.http 404) →
      deleteMockCodeFiles s = Except.ok (0, s)) ∧
    (∀ s', deleteFile "src/calculator.js" "Cleanup: Remove test code file" s = Except.ok s' →
      deleteMockCodeFiles s = Except.ok (1, s')) ∧
    (∀ e, deleteFile "src/calculator.js" "Cleanup: Remove test code file" s = Except.error e →
      e.is404 = false → deleteMockCodeFiles s = Except.error e) := by
  refine ⟨?_, ?_, ?_⟩
  · intro h
    simp [deleteMockCodeFiles, deleteFile, h, OpError.is404]
  · intro s' h
    simp [deleteMockCodeFiles, h]
  · intro e h h404
    simp [deleteMockCodeFiles, h, h404]

/-- Witness for C4: on the empty repository the mock-file delete succeeds
as a no-op. -/
theorem deleteMockCodeFiles_spec_witness :
    deleteMockCodeFiles ⟨[], [], [], []⟩ = Except.ok (0, ⟨[], [], [], []⟩) :=
  (deleteMockCodeFiles_spec ⟨[], [], [], []⟩).1 rfl

/-- C5: `createOrUpdateFile` probes the path first; a probe that finds a
file (with the non-empty revision handle the remote always produces) makes
the write carry that handle (update), a probe failing with 404 makes the
write carry no handle (creation), and any other probe failure propagates
with no write issued. -/
theorem createOrUpdateFile_spec (path content message branch : String)
    (probe : Except OpError ContentResponse) :
    (∀ f, probe = Except.ok (ContentResponse.file f) → f.sha ≠ "" →
      createOrUpdateFile path content message branch probe =
        Except.ok ⟨path, content, message, branch, some f.sha⟩) ∧
    (∀ e, probe = Except.error e → e.is404 = true →
      createOrUpdateFile path content message branch probe =
        Except.ok ⟨path, content, message, branch, none⟩) ∧
    (∀ e, probe = Except.error e → e.is404 = false →
      createOrUpdateFile path content message branch probe = Except.error e) := by
  refine ⟨?_, ?_, ?_⟩
  · intro f h hsha
    simp [createOrUpdateFile, h, hsha]
  · intro e h h404
    simp [createOrUpdateFile, h, h404]
  · intro e h h404
    simp [createOrUpdateFile, h, h404]

/-- Witness for C5: a probe finding an existing file produces an update
request carrying that file's revision handle. -/
theorem createOrUpdateFile_spec_witness :
    createOrUpdateFile "src/calculator.js" "x" "m" "main"
        (Except.ok (ContentResponse.file ⟨"src/calculator.js", "abc123"⟩)) =
      Except.ok ⟨"src/calculator.js", "x", "m", "main", some "abc123"⟩ :=
  (createOrUpdateFile_spec "src/calculator.js" "x" "m" "main"
    (Except.ok (ContentResponse.file ⟨"src/calculator.js", "abc123"⟩))).1
    ⟨"src/calculator.js", "abc123"⟩ rfl (by decide)

/-- Counterexample for C9: with `GITHUB_TOKEN` present but set to the empty
string, the credential is taken from `TEST_REPO_PAT`, not from the first
present source. -/
theorem getGithubToken_counterexample :
    (Env.mk (some "o/r") (some "") (some "pat")).GITHUB_TOKEN = some "" ∧
    getGithubToken (Env.mk (some "o/r") (some "") (some "pat")) = Except.ok "pat" :=
  ⟨rfl, rfl⟩

/-- C9 (amended): parsing the repository identifier succeeds exactly when
`TEST_REPO_NAME` is set and splits on `/` into exactly two non-empty parts,
in which case it returns that pair; the credential is taken from the first
non-empty of `GITHUB_TOKEN` then `TEST_REPO_PAT`, with a descriptive error
when both are absent or empty; `buildConfig` succeeds exactly when both
validations succeed (it performs no other effect). -/
theorem config_validation_spec (env : Env) :
    ((∃ p, parseTestRepoName env = Except.ok p) ↔
      ∃ f o n, env.TEST_REPO_NAME = some f ∧
        (splitOnChar '/' f.data).map (fun l => String.mk l) = [o, n] ∧
        o ≠ "" ∧ n ≠ "") ∧
    (∀ f o n, env.TEST_REPO_NAME = some f →
      (splitOnChar '/' f.data).map (fun l => String.mk l) = [o, n] →
      o ≠ "" → n ≠ "" → parseTestRepoName env = Except.ok (o, n)) ∧
    (∀ g, env.GITHUB_TOKEN = some g → g ≠ "" →
      getGithubToken env = Except.ok g) ∧
    (∀ p, (env.GITHUB_TOKEN = none ∨ env.GITHUB_TOKEN = some "") →
      env.TEST_REPO_PAT = some p → p ≠ "" →
      getGithubToken env = Except.ok p) ∧
    ((env.GITHUB_TOKEN = none ∨ env.GITHUB_TOKEN = some "") →
      (env.TEST_REPO_PAT = none ∨ env.TEST_REPO_PAT = some "") →
      ∃ msg, getGithubToken env = Except.error msg) ∧
    ((∃ c, buildConfig env = Except.ok c) ↔
      ((∃ p, parseTestRepoName env = Except.ok p) ∧
       (∃ t, getGithubToken env = Except.ok t))) := by
  refine ⟨?_, ?_, ?_, ?_, ?_, ?_⟩
  · constructor
    · rintro ⟨p, hp⟩
      match hname : env.TEST_REPO_NAME with
      | none => simp [parseTestRepoName, hname] at hp
      | some f =>
        by_cases hf : f == ""
        · simp [parseTestRepoName, hname, hf] at hp
        · match hsplit : (splitOnChar '/' f.data).map (fun l => String.mk l) with
          | [o, n] =>
            by_cases hok : o == "" || n == ""
            · simp [parseTestRepoName, hname, hf, hsplit, hok] at hp
            · simp only [Bool.or_eq_true, beq_iff_eq, not_or] at hok
              exact ⟨f, o, n, rfl, hsplit, hok.1, hok.2⟩
          | [] => simp [parseTestRepoName, hname, hf, hsplit] at hp
          | [a] => simp [parseTestRepoName, hname, hf, hsplit] at hp
          | a :: b :: c :: r => simp [parseTestRepoName, hname, hf, hsplit] at hp
    · rintro ⟨f, o, n, hname, hsplit, ho, hn⟩
      have hf : ¬ (f == "") = true := by
        intro hf
        rw [beq_iff_eq] at hf
        subst hf
        simp [splitOnChar] at hsplit
      refine ⟨(o, n), ?_⟩
      simp [parseTestRepoName, hname, hf, hsplit, ho, hn]
  · intro f o n hname hsplit ho hn
    have hf : ¬ (f == "") = true := by
      intro hf
      rw [beq_iff_eq] at hf
      subst hf
      simp [splitOnChar] at hsplit
    simp [parseTestRepoName, hname, hf, hsplit, ho, hn]
  · intro g hg hgne
    simp [getGithubToken, jsOr, hg, hgne]
  · intro p hg hp hpne
    rcases hg with hg | hg
    · simp [getGithubToken, jsOr, hg, hp, hpne]
    · simp [getGithubToken, jsOr, hg, hp, hpne]
  · intro hg hp
    rcases hg with hg | hg <;> rcases hp with hp | hp <;>
      exact ⟨"GitHub authentication required. Set one of:\n  • GITHUB_TOKEN (production with GitHub App)\n  • TEST_REPO_PAT (local testing with PAT)",
        by simp [getGithubToken, jsOr, hg, hp]⟩
  · unfold buildConfig
    match hp : parseTestRepoName env with
    | .error e => simp
    | .ok (o, n) =>
      match ht : getGithubToken env with
      | .error e => simp
      | .ok t => simp

/-- Witness for C9: a well-formed identifier parses to its two parts and a
credential present only in `TEST_REPO_PAT` is selected. -/
theorem config_validation_spec_witness :
    parseTestRepoName (Env.mk (some "o/r") none (some "pat")) = Except.ok ("o", "r") ∧
    getGithubToken (Env.mk (some "o/r") none (some "pat")) = Except.ok "pat" :=
  ⟨((config_validation_spec (Env.mk (some "o/r") none (some "pat"))).2.1) "o/r" "o" "r"
      rfl rfl (by decide) (by decide),
   ((config_validation_spec (Env.mk (some "o/r") none (some "pat"))).2.2.2.1) "pat"
      (Or.inl rfl) rfl (by decide)⟩

/-- C10: assuming remote author logins are non-empty (a GitHub invariant),
every comment record produced by `listComments` carries the raw body when
present and the empty string when the body is missing, and carries the
author's login, or nothing when the author is absent; in particular every
body is a total string, so the poller's lowercasing and substring scan never
faults. -/
theorem listComments_total (data : List RawComment)
    (hlogin : ∀ r ∈ data, ∀ u, r.user = some u → u.login ≠ "") :
    listCommentsOn data =
      data.map (fun r => ⟨r.id, r.body.getD "", r.user.map RawUser.login⟩) := by
  unfold listCommentsOn
  refine List.map_congr_left ?_
  intro r hr
  have hu := hlogin r hr
  rcases r with ⟨i, b, u⟩
  simp only [convComment, GHComment.mk.injEq, true_and]
  refine ⟨?_, ?_⟩
  · rcases b with _ | s
    · rfl
    · simp only [jsOrStr, Option.getD_some]
      split
      · next hs => rw [beq_iff_eq] at hs; exact hs.symm
      · rfl
  · rcases u with _ | v
    · rfl
    · have hv : v.login ≠ "" := hu v rfl
      simp [jsOrNull, hv]

/-- Witness for C10: a comment with a missing body and a `github-actions`
author maps to the empty body and that login. -/
theorem listComments_total_witness :
    listCommentsOn [⟨7, none, some ⟨"github-actions"⟩⟩] =
      [⟨7, (none : Option String).getD "", (some (⟨"github-actions"⟩ : RawUser)).map RawUser.login⟩] :=
  listComments_total [⟨7, none, some ⟨"github-actions"⟩⟩]
    (by intro r hr u hu
        simp only [List.mem_singleton] at hr
        subst hr
        cases hu
        decide)

/-! ## Theorems: branch deletion -/

/-- Deleting a duplicate-free list of existing branches in sequence succeeds
and removes exactly those branches. -/
theorem runSeq_deleteBranch_ok (L : List String) :
    ∀ s : RepoState, L.Nodup → (∀ b ∈ L, b ∈ s.branches) →
      runSeq (fun b st => deleteBranch b st) L s =
        Except.ok { s with branches := s.branches.filter (fun b => !(L.contains b)) } := by
  induction L with
  | nil =>
    intro s _ _
    simp [runSeq]
  | cons h t ih =>
    intro s hnd hmem
    have hh : h ∈ s.branches := hmem h (by simp)
    have hdel : deleteBranch h s =
        .ok { s with branches := s.branches.filter (fun c => c != h) } := by
      unfold deleteBranch
      rw [if_pos]
      rw [List.any_eq_true]
      exact ⟨h, hh, by simp⟩
    have hnotin : h ∉ t := (List.nodup_cons.mp hnd).1
    have hmem' : ∀ b ∈ t, b ∈ s.branches.filter (fun c => c != h) := by
      intro b hb
      rw [List.mem_filter]
      refine ⟨hmem b (by simp [hb]), ?_⟩
      simp only [bne_iff_ne, ne_eq]
      intro hbh
      exact hnotin (hbh ▸ hb)
    simp only [runSeq, hdel]
    rw [ih _ (List.nodup_cons.mp hnd).2 hmem']
    congr 1
    congr 1
    rw [List.filter_filter]
    refine List.filter_congr ?_
    intro b _
    simp only [List.contains_cons, Bool.not_or, Bool.and_comm, bne]

/-- C8: on a repository whose branch names are distinct (as the remote
guarantees), `deleteAllBranches` succeeds, the deleted names are exactly the
listed branches different from `main`, and the remaining branches are exactly
the listed occurrences of `main` — in particular `main` is never deleted. -/
theorem deleteAllBranches_spec (s : RepoState) (hnd : s.branches.Nodup) :
    deleteAllBranches s =
      Except.ok (s.branches.filter (fun b => b != "main"),
        { s with branches := s.branches.filter (fun b => b == "main") }) := by
  have hlist : listBranches s = .ok s.branches := by
    simp only [listBranches, listBranchesOn, List.map_map]
    rw [show (BranchRec.name ∘ fun n => BranchRec.mk n) = id from rfl, List.map_id]
  have hpt : ∀ b ∈ s.branches,
      (!(List.filter (fun c => c != "main") s.branches).contains b) = (b == "main") := by
    intro b hb
    by_cases hbm : b = "main"
    · subst hbm
      simp
    · have hmem : b ∈ List.filter (fun c => c != "main") s.branches := by
        simp [List.mem_filter, hb, hbm]
      have hc : (List.filter (fun c => c != "main") s.branches).contains b = true := by
        rw [List.elem_iff]
        exact hmem
      rw [hc]
      simp [hbm]
  simp only [deleteAllBranches, hlist,
    runSeq_deleteBranch_ok (s.branches.filter (fun b => b != "main")) s (hnd.filter _)
      (fun b hb => (List.mem_filter.mp hb).1),
    List.filter_congr hpt]

/-- Witness for C8: from the branch list `["main", "feat-1", "feat-2"]`
exactly `["feat-1", "feat-2"]` are deleted and `main` remains. -/
theorem deleteAllBranches_spec_witness :
    deleteAllBranches ⟨[], [], ["main", "feat-1", "feat-2"], []⟩ =
      Except.ok (["feat-1", "feat-2"],
        ⟨[], [], ["main"], []⟩) :=
  deleteAllBranches_spec ⟨[], [], ["main", "feat-1", "feat-2"], []⟩ (by decide)

/-! ## Theorems: the reconciler -/

/-- Pure value of `listFiles` on the fault-free state: empty when the path
itself is a file, otherwise the paths of the entries strictly below it. -/
def listFilesPureL (dir : String) (fs : List RepoFile) : List String :=
  match fs.find? (fun f => f.path == dir) with
  | some _ => []
  | none => (fs.filter (isChildPath dir)).map RepoFile.path

/-- On the fault-free state, `listFiles` always succeeds with the pure value. -/
theorem listFiles_eq (dir : String) (s : RepoState) :
    listFiles dir s = .ok (listFilesPureL dir s.files) := by
  unfold listFiles getContent listFilesPureL
  match hfind : s.files.find? (fun f => f.path == dir) with
  | some f => simp [hfind, listFilesOn]
  | none =>
    match hfilt : s.files.filter (isChildPath dir) with
    | [] => simp [hfind, hfilt, listFilesOn, OpError.is404]
    | e :: es => simp [hfind, hfilt, listFilesOn]

/-- A successful sequential run whose operation acts as a pure update
computes the fold of that update. -/
theorem runSeq_ok_upd (op : α → RepoState → Except OpError RepoState)
    (upd : α → RepoState → RepoState)
    (hop : ∀ x s t, op x s = .ok t → t = upd x s) :
    ∀ (L : List α) (s t : RepoState), runSeq op L s = .ok t →
      t = L.foldl (fun st x => upd x st) s := by
  intro L
  induction L with
  | nil =>
    intro s t h
    simp only [runSeq] at h
    cases h
    simp
  | cons x rest ih =>
    intro s t h
    simp only [runSeq] at h
    split at h
    · next s1 hx =>
      rw [List.foldl_cons, ← hop x s s1 hx]
      exact ih _ _ h
    · exact Except.noConfusion h

/-- A successful `closePullRequest` marks every pull request carrying the
number as closed. -/
theorem closePullRequest_ok (n : Nat) (s t : RepoState)
    (h : closePullRequest n s = .ok t) :
    t = { s with prs := s.prs.map (fun p =>
          if p.number == n then { p with isOpen := false } else p) } := by
  unfold closePullRequest at h
  split at h
  · cases h; rfl
  · exact Except.noConfusion h

/-- A successful `closeIssue` marks every issue record carrying the number
as closed. -/
theorem closeIssue_ok (n : Nat) (s t : RepoState)
    (h : closeIssue n s = .ok t) :
    t = { s with issues := s.issues.map (fun i =>
          if i.number == n then { i with isOpen := false } else i) } := by
  unfold closeIssue at h
  split at h
  · cases h; rfl
  · exact Except.noConfusion h

/-- A successful `deleteBranch` removes the branch name. -/
theorem deleteBranch_ok (b : String) (s t : RepoState)
    (h : deleteBranch b s = .ok t) :
    t = { s with branches := s.branches.filter (fun c => c != b) } := by
  unfold deleteBranch at h
  split at h
  · cases h; rfl
  · exact Except.noConfusion h

/-- A successful `deleteFile` removes the entry at the path. -/
theorem deleteFile_ok (p m : String) (s t : RepoState)
    (h : deleteFile p m s = .ok t) :
    t = { s with files := s.files.filter (fun f => f.path != p) } := by
  unfold deleteFile at h
  split at h
  · exact Except.noConfusion h
  · exact Except.noConfusion h
  · cases h; rfl

/-- A fold that only rewrites the pull-request list leaves the other fields
unchanged. -/
theorem foldl_prs_frame (g : α → List PullReq → List PullReq) (L : List α) :
    ∀ s : RepoState, L.foldl (fun st x => { st with prs := g x st.prs }) s =
      { s with prs := L.foldl (fun acc x => g x acc) s.prs } := by
  induction L with
  | nil => intro s; rfl
  | cons x rest ih => intro s; rw [List.foldl_cons, List.foldl_cons, ih]

/-- A fold that only rewrites the issue list leaves the other fields
unchanged. -/
theorem foldl_issues_frame (g : α → List IssueRec → List IssueRec) (L : List α) :
    ∀ s : RepoState, L.foldl (fun st x => { st with issues := g x st.issues }) s =
      { s with issues := L.foldl (fun acc x => g x acc) s.issues } := by
  induction L with
  | nil => intro s; rfl
  | cons x rest ih => intro s; rw [List.foldl_cons, List.foldl_cons, ih]

/-- A fold that only rewrites the branch list leaves the other fields
unchanged. -/
theorem foldl_branches_frame (g : α → List String → List String) (L : List α) :
    ∀ s : RepoState, L.foldl (fun st x => { st with branches := g x st.branches }) s =
      { s with branches := L.foldl (fun acc x => g x acc) s.branches } := by
  induction L with
  | nil => intro s; rfl
  | cons x rest ih => intro s; rw [List.foldl_cons, List.foldl_cons, ih]

/-- A fold that only rewrites the file list leaves the other fields
unchanged. -/
theorem foldl_files_frame (g : α → List RepoFile → List RepoFile) (L : List α) :
    ∀ s : RepoState, L.foldl (fun st x => { st with files := g x st.files }) s =
      { s with files := L.foldl (fun acc x => g x acc) s.files } := by
  induction L with
  | nil => intro s; rfl
  | cons x rest ih => intro s; rw [List.foldl_cons, List.foldl_cons, ih]

/-- Closing a pull request for every number of `ns` as one map. -/
def closeMark (ns : List Nat) (p : PullReq) : PullReq :=
  if ns.contains p.number then { p with isOpen := false } else p

/-- Closing an issue record for every number of `ns` as one map. -/
def closeMarkIss (ns : List Nat) (i : IssueRec) : IssueRec :=
  if ns.contains i.number then { i with isOpen := false } else i

/-- Closing pull requests one number at a time equals one closing map. -/
theorem foldl_close_prs (key : β → Nat) (L : List β) :
    ∀ ps : List PullReq,
      L.foldl (fun acc x => acc.map (fun p =>
        if p.number == key x then { p with isOpen := false } else p)) ps
      = ps.map (closeMark (L.map key)) := by
  induction L with
  | nil =>
    intro ps
    rw [List.foldl_nil]
    refine (List.map_congr_left ?_).symm.trans (List.map_id ps) |>.symm
    intro p _
    simp [closeMark]
  | cons x rest ih =>
    intro ps
    rw [List.foldl_cons, ih, List.map_map, List.map_cons]
    refine List.map_congr_left ?_
    intro p _
    simp only [Function.comp, closeMark, List.contains_cons]
    by_cases hn : p.number == key x
    · rw [if_pos hn]
      by_cases hr : (rest.map key).contains p.number
      · simp [hn, hr]
      · simp [hn, hr]
    · rw [if_neg hn]
      by_cases hr : (rest.map key).contains p.number
      · simp [hn, hr]
      · simp [hn, hr]

/-- Closing issues one number at a time equals one closing map. -/
theorem foldl_close_issues (key : β → Nat) (L : List β) :
    ∀ is : List IssueRec,
      L.foldl (fun acc x => acc.map (fun i =>
        if i.number == key x then { i with isOpen := false } else i)) is
      = is.map (closeMarkIss (L.map key)) := by
  induction L with
  | nil =>
    intro is
    rw [List.foldl_nil]
    refine (List.map_congr_left ?_).symm.trans (List.map_id is) |>.symm
    intro i _
    simp [closeMarkIss]
  | cons x rest ih =>
    intro is
    rw [List.foldl_cons, ih, List.map_map, List.map_cons]
    refine List.map_congr_left ?_
    intro i _
    simp only [Function.comp, closeMarkIss, List.contains_cons]
    by_cases hn : i.number == key x
    · rw [if_pos hn]
      by_cases hr : (rest.map key).contains i.number
      · simp [hn, hr]
      · simp [hn, hr]
    · rw [if_neg hn]
      by_cases hr : (rest.map key).contains i.number
      · simp [hn, hr]
      · simp [hn, hr]

/-- Filtering one key at a time equals one filter on key membership. -/
theorem foldl_filter_key (key : β → String) (L : List String) :
    ∀ xs : List β,
      L.foldl (fun acc a => acc.filter (fun x => key x != a)) xs
      = xs.filter (fun x => !(L.contains (key x))) := by
  induction L with
  | nil =>
    intro xs
    simp
  | cons a rest ih =>
    intro xs
    rw [List.foldl_cons, ih, List.filter_filter]
    refine List.filter_congr ?_
    intro x _
    simp only [List.contains_cons, Bool.not_or, Bool.and_comm, bne]

/-- A successful `closeAllPullRequests` closes exactly the listed open pull
requests and reports their count. -/
theorem closeAllPullRequests_ok (s : RepoState) (n : Nat) (t : RepoState)
    (h : closeAllPullRequests s = .ok (n, t)) :
    t = { s with prs := s.prs.map (closeMark
          ((s.prs.filter (fun p => matchesState "open" p.isOpen)).map PullReq.number)) } ∧
    n = (s.prs.filter (fun p => matchesState "open" p.isOpen)).length := by
  simp only [closeAllPullRequests, listPullRequests, listPullRequestsOn] at h
  split at h
  · next s1 hrun =>
    cases h
    have hchar := runSeq_ok_upd _ _
      (fun x s t hx => closePullRequest_ok x.number s t hx) _ _ _ hrun
    rw [foldl_prs_frame] at hchar
    rw [List.foldl_map] at hchar
    dsimp only at hchar
    rw [foldl_close_prs PullReq.number] at hchar
    constructor
    · exact hchar
    · rw [List.length_map]
  · exact Except.noConfusion h

/-- A successful `closeAllIssues` closes exactly the listed open non-PR
issues and reports their count. -/
theorem closeAllIssues_ok (s : RepoState) (n : Nat) (t : RepoState)
    (h : closeAllIssues s = .ok (n, t)) :
    t = { s with issues := s.issues.map (closeMarkIss
          (((s.issues.filter (fun i => matchesState "open" i.isOpen)).filter
            (fun i => !i.isPullRequest)).map IssueRec.number)) } ∧
    n = ((s.issues.filter (fun i => matchesState "open" i.isOpen)).filter
          (fun i => !i.isPullRequest)).length := by
  simp only [closeAllIssues, listIssues, listIssuesOn] at h
  split at h
  · next s1 hrun =>
    cases h
    have hchar := runSeq_ok_upd _ _
      (fun x s t hx => closeIssue_ok x.number s t hx) _ _ _ hrun
    rw [foldl_issues_frame] at hchar
    rw [List.foldl_map] at hchar
    dsimp only at hchar
    rw [foldl_close_issues IssueRec.number] at hchar
    constructor
    · exact hchar
    · rw [List.length_map]
  · exact Except.noConfusion h

/-- A successful `deleteAllBranches` reports exactly the listed branches
different from `main` and removes them. -/
theorem deleteAllBranches_ok (s : RepoState) (bs : List String) (t : RepoState)
    (h : deleteAllBranches s = .ok (bs, t)) :
    bs = s.branches.filter (fun b => b != "main") ∧
    t = { s with branches := s.branches.filter (fun b => !(bs.contains b)) } := by
  have hlist : listBranches s = .ok s.branches := by
    simp only [listBranches, listBranchesOn, List.map_map]
    rw [show (BranchRec.name ∘ fun n => BranchRec.mk n) = id from rfl, List.map_id]
  rw [deleteAllBranches, hlist] at h
  simp only [] at h
  split at h
  · next s1 hrun =>
    cases h
    have hchar := runSeq_ok_upd _ _
      (fun x s t hx => deleteBranch_ok x s t hx) _ _ _ hrun
    rw [foldl_branches_frame] at hchar
    rw [foldl_filter_key (fun c => c)] at hchar
    exact ⟨rfl, hchar⟩
  · exact Except.noConfusion h

/-- A successful `deleteWorkflowFiles` removes exactly the listed workflow
entries and reports their count. -/
theorem deleteWorkflowFiles_ok (s : RepoState) (n : Nat) (t : RepoState)
    (h : deleteWorkflowFiles s = .ok (n, t)) :
    t = { s with files := s.files.filter (fun f =>
          !((listFilesPureL ".github/workflows" s.files).contains f.path)) } ∧
    n = (listFilesPureL ".github/workflows" s.files).length := by
  rw [deleteWorkflowFiles, listWorkflowFiles, listFiles_eq] at h
  simp only [] at h
  split at h
  · next s1 hrun =>
    cases h
    have hchar := runSeq_ok_upd _ _
      (fun x s t hx => deleteFile_ok x "Cleanup: Remove test workflow file" s t hx) _ _ _ hrun
    rw [foldl_files_frame] at hchar
    rw [foldl_filter_key RepoFile.path] at hchar
    exact ⟨hchar, rfl⟩
  · exact Except.noConfusion h

/-- A successful `deleteCommandFiles` removes exactly the listed command
entries and reports their count. -/
theorem deleteCommandFiles_ok (s : RepoState) (n : Nat) (t : RepoState)
    (h : deleteCommandFiles s = .ok (n, t)) :
    t = { s with files := s.files.filter (fun f =>
          !((listFilesPureL ".github/commands" s.files).contains f.path)) } ∧
    n = (listFilesPureL ".github/commands" s.files).length := by
  rw [deleteCommandFiles, listCommandFiles, listFiles_eq] at h
  simp only [] at h
  split at h
  · next s1 hrun =>
    cases h
    have hchar := runSeq_ok_upd _ _
      (fun x s t hx => deleteFile_ok x "Cleanup: Remove test command file" s t hx) _ _ _ hrun
    rw [foldl_files_frame] at hchar
    rw [foldl_filter_key RepoFile.path] at hchar
    exact ⟨hchar, rfl⟩
  · exact Except.noConfusion h

/-- A successful `deleteMockCodeFiles` either caught a 404 (state
unchanged) or removed the mock source file. -/
theorem deleteMockCodeFiles_ok (s : RepoState) (n : Nat) (t : RepoState)
    (h : deleteMockCodeFiles s = .ok (n, t)) :
    (t = s ∧ getContent "src/calculator.js" s = .error (.http 404)) ∨
    t = { s with files := s.files.filter (fun f => f.path != "src/calculator.js") } := by
  unfold deleteMockCodeFiles at h
  split at h
  · next s1 hdel =>
    cases h
    exact Or.inr (deleteFile_ok _ _ _ _ hdel)
  · next e hdel =>
    split at h
    · next h404 =>
      cases h
      refine Or.inl ⟨rfl, ?_⟩
      unfold deleteFile at hdel
      split at hdel
      · next hg =>
        cases hdel
        match e, h404 with
        | .http st, h404 =>
          have : st = 404 := by simpa [OpError.is404] using h404
          subst this
          exact hg
      · next hg => cases hdel; simp [OpError.is404] at h404
      · exact Except.noConfusion hdel
    · exact Except.noConfusion h

/-- The `open` state filter keeps exactly the open records. -/
theorem matchesState_open (b : Bool) : matchesState "open" b = b := rfl

/-- After closing every listed open pull request, no open pull request
remains. -/
theorem open_prs_nil (ps : List PullReq) :
    (ps.map (closeMark ((ps.filter (fun p => matchesState "open" p.isOpen)).map PullReq.number))).filter
      (fun p => matchesState "open" p.isOpen) = [] := by
  rw [List.filter_eq_nil_iff]
  intro p' hp'
  rw [List.mem_map] at hp'
  obtain ⟨p, hp, rfl⟩ := hp'
  rw [matchesState_open]
  unfold closeMark
  by_cases hc : ((ps.filter (fun q => matchesState "open" q.isOpen)).map PullReq.number).contains p.number
  · rw [if_pos hc]
    simp
  · rw [if_neg hc]
    intro hopen
    apply hc
    rw [List.elem_iff, List.mem_map]
    exact ⟨p, List.mem_filter.mpr ⟨hp, by rw [matchesState_open]; exact hopen⟩, rfl⟩

/-- After closing every listed open non-PR issue, no open non-PR issue
remains. -/
theorem open_issues_nil (is : List IssueRec) :
    (((is.map (closeMarkIss (((is.filter (fun i => matchesState "open" i.isOpen)).filter
        (fun i => !i.isPullRequest)).map IssueRec.number))).filter
      (fun i => matchesState "open" i.isOpen)).filter (fun i => !i.isPullRequest)) = [] := by
  rw [List.filter_eq_nil_iff]
  intro i' hi'
  rw [List.mem_filter] at hi'
  obtain ⟨hi'mem, hi'open⟩ := hi'
  rw [List.mem_map] at hi'mem
  obtain ⟨i, hi, rfl⟩ := hi'mem
  rw [matchesState_open] at hi'open
  unfold closeMarkIss at hi'open ⊢
  by_cases hc : (((is.filter (fun j => matchesState "open" j.isOpen)).filter
      (fun j => !j.isPullRequest)).map IssueRec.number).contains i.number
  · rw [if_pos hc] at hi'open
    simp at hi'open
  · rw [if_neg hc] at hi'open ⊢
    intro hnotpr
    apply hc
    rw [List.elem_iff, List.mem_map]
    refine ⟨i, ?_, rfl⟩
    exact List.mem_filter.mpr
      ⟨List.mem_filter.mpr ⟨hi, by rw [matchesState_open]; exact hi'open⟩, hnotpr⟩

/-- After deleting every branch different from `main`, no such branch
remains. -/
theorem branches_nil (bs : List String) :
    (bs.filter (fun b => !((bs.filter (fun c => c != "main")).contains b))).filter
      (fun b => b != "main") = [] := by
  rw [List.filter_eq_nil_iff]
  intro b hb hbm
  rw [List.mem_filter] at hb
  obtain ⟨hbmem, hbnc⟩ := hb
  rw [Bool.not_eq_true'] at hbnc
  have : (bs.filter (fun c => c != "main")).contains b = true := by
    rw [List.elem_iff]
    exact List.mem_filter.mpr ⟨hbmem, hbm⟩
  rw [this] at hbnc
  exact Bool.noConfusion hbnc

/-- Every listed file of a directory is a stored entry strictly below it. -/
theorem listFilesPureL_mem (dir : String) (fs : List RepoFile) :
    ∀ p ∈ listFilesPureL dir fs, ∃ f ∈ fs, f.path = p ∧ isChildPath dir f = true := by
  intro p hp
  unfold listFilesPureL at hp
  match hfind : fs.find? (fun f => f.path == dir) with
  | some f0 => rw [hfind] at hp; exact absurd hp (List.not_mem_nil p)
  | none =>
    rw [hfind] at hp
    rw [List.mem_map] at hp
    obtain ⟨f, hf, rfl⟩ := hp
    rw [List.mem_filter] at hf
    exact ⟨f, hf.1, rfl, hf.2⟩

/-- Deleting every listed entry of a directory leaves its listing empty. -/
theorem listFilesPureL_after_gen (dir : String) (fs : List RepoFile) (W : List String)
    (hW : W = listFilesPureL dir fs) :
    listFilesPureL dir (fs.filter (fun f => !(W.contains f.path))) = [] := by
  match hfind : fs.find? (fun f => f.path == dir) with
  | some f0 =>
    have hWnil : W = [] := by rw [hW]; unfold listFilesPureL; simp only [hfind]
    subst hWnil
    simp only [List.elem_nil, Bool.not_false, List.filter_true]
    unfold listFilesPureL
    simp only [hfind]
  | none =>
    have hforall := List.find?_eq_none.mp hfind
    unfold listFilesPureL
    match hfind2 : (fs.filter (fun f => !(W.contains f.path))).find?
        (fun f => f.path == dir) with
    | some f1 =>
      exfalso
      have hmem1 := List.mem_of_find?_eq_some hfind2
      rw [List.mem_filter] at hmem1
      exact absurd (List.find?_some hfind2) (hforall f1 hmem1.1)
    | none =>
      simp only [hfind2]
      rw [List.map_eq_nil_iff, List.filter_eq_nil_iff]
      intro f hf hchild
      rw [List.mem_filter] at hf
      obtain ⟨hfmem, hfnc⟩ := hf
      rw [Bool.not_eq_true'] at hfnc
      have hpin : f.path ∈ W := by
        rw [hW]
        unfold listFilesPureL
        rw [hfind, List.mem_map]
        exact ⟨f, List.mem_filter.mpr ⟨hfmem, hchild⟩, rfl⟩
      have hctrue : W.contains f.path = true := List.elem_iff.mpr hpin
      rw [hctrue] at hfnc
      exact Bool.noConfusion hfnc

/-- Instance of the previous lemma at the listing itself. -/
theorem listFilesPureL_after (dir : String) (fs : List RepoFile) :
    listFilesPureL dir (fs.filter (fun f => !((listFilesPureL dir fs).contains f.path))) = [] :=
  listFilesPureL_after_gen dir fs _ rfl

/-- An empty directory listing stays empty under deletions that keep an
entry sitting at the directory path itself. -/
theorem listFilesPureL_nil_filter (dir : String) (fs : List RepoFile) (P : RepoFile → Bool)
    (hnil : listFilesPureL dir fs = [])
    (hP : ∀ f ∈ fs, f.path = dir → P f = true) :
    listFilesPureL dir (fs.filter P) = [] := by
  match hfind : fs.find? (fun f => f.path == dir) with
  | some f0 =>
    have hmem : f0 ∈ fs := List.mem_of_find?_eq_some hfind
    have hpath := List.find?_some hfind
    have hin : f0 ∈ fs.filter P :=
      List.mem_filter.mpr ⟨hmem, hP f0 hmem (by simpa using hpath)⟩
    unfold listFilesPureL
    match hfind2 : (fs.filter P).find? (fun f => f.path == dir) with
    | some _ => simp only [hfind2]
    | none => exact absurd hpath (List.find?_eq_none.mp hfind2 f0 hin)
  | none =>
    unfold listFilesPureL at hnil
    rw [hfind] at hnil
    rw [List.map_eq_nil_iff, List.filter_eq_nil_iff] at hnil
    unfold listFilesPureL
    match hfind2 : (fs.filter P).find? (fun f => f.path == dir) with
    | some f1 =>
      exfalso
      have hmem1 := List.mem_of_find?_eq_some hfind2
      rw [List.mem_filter] at hmem1
      exact absurd (List.find?_some hfind2) (List.find?_eq_none.mp hfind f1 hmem1.1)
    | none =>
      simp only [hfind2]
      rw [List.map_eq_nil_iff, List.filter_eq_nil_iff]
      intro f hf hchild
      rw [List.mem_filter] at hf
      exact hnil f hf.1 hchild

/-- On the fault-free state, `listBranches` returns the branch names. -/
theorem listBranches_eval (s : RepoState) : listBranches s = .ok s.branches := by
  simp only [listBranches, listBranchesOn, List.map_map]
  rw [show (BranchRec.name ∘ fun n => BranchRec.mk n) = id from rfl, List.map_id]

/-- A failing `getContent` means no entry at the path and none below it. -/
theorem getContent_error_inv (p : String) (s : RepoState) (e : OpError)
    (h : getContent p s = .error e) :
    s.files.find? (fun f => f.path == p) = none ∧
      s.files.filter (isChildPath p) = [] := by
  unfold getContent at h
  split at h
  · exact Except.noConfusion h
  · next hfind =>
    split at h
    · next hfilt => exact ⟨hfind, hfilt⟩
    · exact Except.noConfusion h

/-- With no entry at the path and none below it, `getContent` fails with
404. -/
theorem getContent_404 (p : String) (s : RepoState)
    (hfind : s.files.find? (fun f => f.path == p) = none)
    (hfilt : s.files.filter (isChildPath p) = []) :
    getContent p s = .error (.http 404) := by
  unfold getContent
  simp only [hfind, hfilt]

/-- Master characterisation: whenever `cleanup` completes without error,
the resulting state has no open pull request, no open issue, no branch other
than `main`, no workflow file, no command file and no mock source file, and
its files are a subset of the initial ones. -/
theorem cleanup_ok_post (s : RepoState) (r : CleanupReport) (s' : RepoState)
    (h : cleanup s = .ok (r, s')) :
    listPullRequests "open" s' = .ok [] ∧
    listIssues "open" s' = .ok [] ∧
    s'.branches.filter (fun b => b != "main") = [] ∧
    listWorkflowFiles s' = .ok [] ∧
    listCommandFiles s' = .ok [] ∧
    s'.files.find? (fun f => f.path == "src/calculator.js") = none ∧
    (∀ f ∈ s'.files, f ∈ s.files) := by
  unfold cleanup at h
  split at h
  · exact Except.noConfusion h
  next n1 s1 h1 =>
  split at h
  · exact Except.noConfusion h
  next n2 s2 h2 =>
  split at h
  · exact Except.noConfusion h
  next bs s3 h3 =>
  split at h
  · exact Except.noConfusion h
  next n4 s4 h4 =>
  split at h
  · exact Except.noConfusion h
  next n5 s5 h5 =>
  split at h
  · exact Except.noConfusion h
  next n6 s6 h6 =>
  cases h
  obtain ⟨he1, hn1⟩ := closeAllPullRequests_ok s n1 s1 h1
  obtain ⟨he2, hn2⟩ := closeAllIssues_ok s1 n2 s2 h2
  obtain ⟨hbs, he3⟩ := deleteAllBranches_ok s2 bs s3 h3
  obtain ⟨he4, hn4⟩ := deleteWorkflowFiles_ok s3 n4 s4 h4
  obtain ⟨he5, hn5⟩ := deleteCommandFiles_ok s4 n5 s5 h5
  have h6d := deleteMockCodeFiles_ok s5 n6 s' h6
  -- field equations of the intermediate states
  have f1prs : s1.prs = s.prs.map (closeMark
      ((s.prs.filter (fun p => matchesState "open" p.isOpen)).map PullReq.number)) := by
    rw [he1]
  have f1iss : s1.issues = s.issues := by rw [he1]
  have f1br : s1.branches = s.branches := by rw [he1]
  have f1fi : s1.files = s.files := by rw [he1]
  have f2prs : s2.prs = s1.prs := by rw [he2]
  have f2iss : s2.issues = s1.issues.map (closeMarkIss
      (((s1.issues.filter (fun i => matchesState "open" i.isOpen)).filter
        (fun i => !i.isPullRequest)).map IssueRec.number)) := by
    rw [he2]
  have f2br : s2.branches = s1.branches := by rw [he2]
  have f2fi : s2.files = s1.files := by rw [he2]
  have f3prs : s3.prs = s2.prs := by rw [he3]
  have f3iss : s3.issues = s2.issues := by rw [he3]
  have f3br : s3.branches = s2.branches.filter (fun b => !(bs.contains b)) := by rw [he3]
  have f3fi : s3.files = s2.files := by rw [he3]
  have f4prs : s4.prs = s3.prs := by rw [he4]
  have f4iss : s4.issues = s3.issues := by rw [he4]
  have f4br : s4.branches = s3.branches := by rw [he4]
  have f4fi : s4.files = s3.files.filter (fun f =>
      !((listFilesPureL ".github/workflows" s3.files).contains f.path)) := by rw [he4]
  have f5prs : s5.prs = s4.prs := by rw [he5]
  have f5iss : s5.issues = s4.issues := by rw [he5]
  have f5br : s5.branches = s4.branches := by rw [he5]
  have f5fi : s5.files = s4.files.filter (fun f =>
      !((listFilesPureL ".github/commands" s4.files).contains f.path)) := by rw [he5]
  have f6prs : s'.prs = s5.prs := by
    rcases h6d with ⟨h6e, _⟩ | h6e <;> rw [h6e]
  have f6iss : s'.issues = s5.issues := by
    rcases h6d with ⟨h6e, _⟩ | h6e <;> rw [h6e]
  have f6br : s'.branches = s5.branches := by
    rcases h6d with ⟨h6e, _⟩ | h6e <;> rw [h6e]
  -- pull requests
  have hprs : s'.prs = s.prs.map (closeMark
      ((s.prs.filter (fun p => matchesState "open" p.isOpen)).map PullReq.number)) := by
    rw [f6prs, f5prs, f4prs, f3prs, f2prs, f1prs]
  have hPRnil : s'.prs.filter (fun p => matchesState "open" p.isOpen) = [] := by
    rw [hprs]
    exact open_prs_nil s.prs
  have cPR : listPullRequests "open" s' = .ok [] := by
    simp only [listPullRequests, listPullRequestsOn, hPRnil, List.map_nil]
  -- issues
  have hiss : s'.issues = s.issues.map (closeMarkIss
      (((s.issues.filter (fun i => matchesState "open" i.isOpen)).filter
        (fun i => !i.isPullRequest)).map IssueRec.number)) := by
    rw [f6iss, f5iss, f4iss, f3iss, f2iss, f1iss]
  have hISnil : (s'.issues.filter (fun i => matchesState "open" i.isOpen)).filter
      (fun i => !i.isPullRequest) = [] := by
    rw [hiss]
    exact open_issues_nil s.issues
  have cIS : listIssues "open" s' = .ok [] := by
    simp only [listIssues, listIssuesOn, hISnil, List.map_nil]
  -- branches
  have hbr : s'.branches = s.branches.filter (fun b =>
      !((s.branches.filter (fun c => c != "main")).contains b)) := by
    rw [f6br, f5br, f4br, f3br, hbs, f2br, f1br]
  have cBR : s'.branches.filter (fun b => b != "main") = [] := by
    rw [hbr]
    exact branches_nil s.branches
  -- workflow files
  have wf4 : listFilesPureL ".github/workflows" s4.files = [] := by
    rw [f4fi]
    exact listFilesPureL_after _ _
  have hside45 : ∀ f ∈ s4.files, f.path = ".github/workflows" →
      (!((listFilesPureL ".github/commands" s4.files).contains f.path)) = true := by
    intro f hf hfp
    cases hc : (listFilesPureL ".github/commands" s4.files).contains f.path with
    | false => rfl
    | true =>
      exfalso
      have hmemC : f.path ∈ listFilesPureL ".github/commands" s4.files :=
        List.elem_iff.mp hc
      obtain ⟨g, _, hgp, hgchild⟩ := listFilesPureL_mem _ _ _ hmemC
      unfold isChildPath at hgchild
      rw [hgp, hfp] at hgchild
      exact absurd hgchild (by decide)
  have wf5 : listFilesPureL ".github/workflows" s5.files = [] := by
    rw [f5fi]
    exact listFilesPureL_nil_filter _ _ _ wf4 hside45
  have cWF : listWorkflowFiles s' = .ok [] := by
    rw [listWorkflowFiles, listFiles_eq]
    rcases h6d with ⟨h6e, _⟩ | h6e
    · rw [h6e, wf5]
    · have : s'.files = s5.files.filter (fun f => f.path != "src/calculator.js") := by
        rw [h6e]
      rw [this]
      rw [listFilesPureL_nil_filter _ _ _ wf5 (by intro f _ hfp; rw [hfp]; decide)]
  -- command files
  have cf5 : listFilesPureL ".github/commands" s5.files = [] := by
    rw [f5fi]
    exact listFilesPureL_after _ _
  have cCF : listCommandFiles s' = .ok [] := by
    rw [listCommandFiles, listFiles_eq]
    rcases h6d with ⟨h6e, _⟩ | h6e
    · rw [h6e, cf5]
    · have : s'.files = s5.files.filter (fun f => f.path != "src/calculator.js") := by
        rw [h6e]
      rw [this]
      rw [listFilesPureL_nil_filter _ _ _ cf5 (by intro f _ hfp; rw [hfp]; decide)]
  -- the mock source file
  have cCALC : s'.files.find? (fun f => f.path == "src/calculator.js") = none := by
    rcases h6d with ⟨h6e, h404⟩ | h6e
    · rw [h6e]
      exact (getContent_error_inv _ _ _ h404).1
    · have : s'.files = s5.files.filter (fun f => f.path != "src/calculator.js") := by
        rw [h6e]
      rw [this]
      rw [List.find?_eq_none]
      intro f hf
      rw [List.mem_filter] at hf
      simpa using hf.2
  -- membership chain
  have cSUB : ∀ f ∈ s'.files, f ∈ s.files := by
    intro f hf
    have hf5 : f ∈ s5.files := by
      rcases h6d with ⟨h6e, _⟩ | h6e
      · rw [h6e] at hf
        exact hf
      · rw [h6e] at hf
        exact (List.mem_filter.mp hf).1
    rw [f5fi] at hf5
    have hf4 := (List.mem_filter.mp hf5).1
    rw [f4fi] at hf4
    have hf3 := (List.mem_filter.mp hf4).1
    rw [f3fi, f2fi, f1fi] at hf3
    exact hf3
  exact ⟨cPR, cIS, cBR, cWF, cCF, cCALC, cSUB⟩

/-- C2: for every starting repository state, after `cleanup` completes
without error the repository has zero open pull requests, zero open issues,
no branches other than `main`, no workflow-definition files, no
command-definition files, and no mock source file `src/calculator.js`. -/
theorem cleanup_clean_slate (s : RepoState) (r : CleanupReport) (s' : RepoState)
    (h : cleanup s = Except.ok (r, s')) :
    listPullRequests "open" s' = .ok [] ∧
    listIssues "open" s' = .ok [] ∧
    s'.branches.filter (fun b => b != "main") = [] ∧
    listWorkflowFiles s' = .ok [] ∧
    listCommandFiles s' = .ok [] ∧
    s'.files.find? (fun f => f.path == "src/calculator.js") = none := by
  obtain ⟨a, b, c, d, e, f, _⟩ := cleanup_ok_post s r s' h
  exact ⟨a, b, c, d, e, f⟩

/-- C7: `cleanup` is idempotent — under the git-tree invariant that no
entry lies below `src/calculator.js` (a path cannot be both a file and a
directory), a second run on the state left by a successful run changes
nothing and reports zero items closed or deleted in every sub-step. -/
theorem cleanup_idempotent (s : RepoState) (r : CleanupReport) (s' : RepoState)
    (hcal : ∀ f ∈ s.files, isChildPath "src/calculator.js" f = false)
    (h : cleanup s = Except.ok (r, s')) :
    cleanup s' = Except.ok (⟨0, 0, [], 0, 0, 0⟩, s') := by
  obtain ⟨hPR, hIS, hBR, hWF, hCF, hCALC, hSUB⟩ := cleanup_ok_post s r s' h
  have st1 : closeAllPullRequests s' = .ok (0, s') := by
    simp only [closeAllPullRequests, hPR, runSeq, List.length_nil]
  have st2 : closeAllIssues s' = .ok (0, s') := by
    simp only [closeAllIssues, hIS, runSeq, List.length_nil]
  have st3 : deleteAllBranches s' = .ok ([], s') := by
    simp only [deleteAllBranches, listBranches_eval, hBR, runSeq]
  have st4 : deleteWorkflowFiles s' = .ok (0, s') := by
    simp only [deleteWorkflowFiles, hWF, runSeq, List.length_nil]
  have st5 : deleteCommandFiles s' = .ok (0, s') := by
    simp only [deleteCommandFiles, hCF, runSeq, List.length_nil]
  have hfilt : s'.files.filter (isChildPath "src/calculator.js") = [] := by
    rw [List.filter_eq_nil_iff]
    intro f hf hc
    rw [hcal f (hSUB f hf)] at hc
    exact Bool.noConfusion hc
  have hgc := getContent_404 "src/calculator.js" s' hCALC hfilt
  have hdel : deleteFile "src/calculator.js" "Cleanup: Remove test code file" s' =
      .error (.http 404) := by
    unfold deleteFile
    simp only [hgc]
  have st6 : deleteMockCodeFiles s' = .ok (0, s') := by
    simp only [deleteMockCodeFiles, hdel, OpError.is404]
    simp
  simp only [cleanup, st1, st2, st3, st4, st5, st6]

/-- A small concrete fixture state: one open pull request, one open issue,
one extra branch, one workflow file and the mock source file. -/
def sampleRepo : RepoState :=
  { prs := [⟨11, "t", "feat-1", true⟩]
  , issues := [⟨12, "i", true, false⟩]
  , branches := ["main", "feat-1"]
  , files := [⟨".github/workflows/gemini-review.yml", "sha1"⟩, ⟨"src/calculator.js", "sha2"⟩] }

/-- The state left by `cleanup` on `sampleRepo`. -/
def sampleRepoClean : RepoState :=
  { prs := [⟨11, "t", "feat-1", false⟩]
  , issues := [⟨12, "i", false, false⟩]
  , branches := ["main"]
  , files := [] }

/-- Witness for C2: the clean-slate conjunction holds of the state left by
`cleanup` on the sample fixture. -/
theorem cleanup_clean_slate_witness :
    listPullRequests "open" sampleRepoClean = .ok [] ∧
    listIssues "open" sampleRepoClean = .ok [] ∧
    sampleRepoClean.branches.filter (fun b => b != "main") = [] ∧
    listWorkflowFiles sampleRepoClean = .ok [] ∧
    listCommandFiles sampleRepoClean = .ok [] ∧
    sampleRepoClean.files.find? (fun f => f.path == "src/calculator.js") = none :=
  cleanup_clean_slate sampleRepo ⟨1, 1, ["feat-1"], 1, 0, 1⟩ sampleRepoClean rfl

/-- Witness for C7: a second `cleanup` on the cleaned sample fixture is an
identity reporting zero everywhere. -/
theorem cleanup_idempotent_witness :
    cleanup sampleRepoClean = Except.ok (⟨0, 0, [], 0, 0, 0⟩, sampleRepoClean) :=
  cleanup_idempotent sampleRepo ⟨1, 1, ["feat-1"], 1, 0, 1⟩ sampleRepoClean
    (by decide) rfl
